import Mathlib

/-!
Verification of the evaluation / metric core of a temporal knowledge-graph
link-prediction codebase (`src/utils.py`): the `Metric` accumulator, the
ranking logic of `evaluate`, the temporal-token index built in `get_data`,
and the checkpoint `resume` guard.

Conventions of the embedding:
* Python ints become `Nat`/`Int`; Python floats on the metric path are exact
  and modelled as `ℚ`.
* torch tensors on the evaluation path are 1-D vectors of rationals
  (`Vec := List ℚ`); a batch is a `List Triple`.
* A Python function that can raise is modelled with an explicit error
  component (`Option`, `Except`, or a `Bool` "raised" flag paired with the
  partially mutated state when the mutation happens before the raise).
-/

namespace Tkgc

/-! ### Metric (src/utils.py, class Metric) -/

/-- State of `Metric.__init__`: running counters `cnt, h_1, h_3, h_10` and
running sums `mr` (sum of ranks) and `mrr` (sum of reciprocal ranks).
`mrr` is a float in the source, modelled exactly as `ℚ`. -/
@[ext]
structure Metric where
  cnt : Nat
  h_1 : Nat
  h_3 : Nat
  h_10 : Nat
  mr : Int
  mrr : ℚ
  deriving DecidableEq, Repr

/-- `Metric()` — all fields start at zero. -/
def Metric.init : Metric := ⟨0, 0, 0, 0, 0, 0⟩

/-- `Metric.update(self, r)`. The field mutations happen in source order:
`cnt += 1`; the three hit counters guarded by `r < 2`, `r < 4`, `r < 11`;
`mr += r`; finally `mrr += 1.0 / r`. The last statement raises
`ZeroDivisionError` when `r = 0`; we return the state reached at that point
together with a `Bool` that is `true` exactly when the call raised. -/
def Metric.update (m : Metric) (r : Int) : Metric × Bool :=
  let m1 := { m with cnt := m.cnt + 1 }
  let m2 := if r < 2 then { m1 with h_1 := m1.h_1 + 1 } else m1
  let m3 := if r < 4 then { m2 with h_3 := m2.h_3 + 1 } else m2
  let m4 := if r < 11 then { m3 with h_10 := m3.h_10 + 1 } else m3
  let m5 := { m4 with mr := m4.mr + r }
  if r = 0 then (m5, true)
  else ({ m5 with mrr := m5.mrr + 1 / (r : ℚ) }, false)

/-- The state after `update` (the object keeps its mutations even when the
final division raised). -/
def Metric.updateSt (m : Metric) (r : Int) : Metric := (m.update r).1

/-- `Metric._normalize(self)`: divides each counter by `cnt`; with `cnt = 0`
every division is `0 / 0`, a `ZeroDivisionError` in Python, hence `none`. -/
def Metric._normalize (m : Metric) : Option (ℚ × ℚ × ℚ × ℚ × ℚ) :=
  if m.cnt = 0 then none
  else some ((m.h_1 : ℚ) / m.cnt, (m.h_3 : ℚ) / m.cnt, (m.h_10 : ℚ) / m.cnt,
    (m.mr : ℚ) / m.cnt, m.mrr / m.cnt)

/-- `Metric.__str__(self)`: formats the five normalized values; it calls
`_normalize` first, so it propagates the same `ZeroDivisionError`. -/
def Metric.strForm (m : Metric) : Option String :=
  (m._normalize).map (fun v =>
    "\nH@1: " ++ toString v.1 ++ "\nH@3: " ++ toString v.2.1 ++ "\nH@10: "
      ++ toString v.2.2.1 ++ "\nMR: " ++ toString v.2.2.2.1
      ++ "\nMRR: " ++ toString v.2.2.2.2 ++ "\n")

/-- `Metric.__iter__(self)`: yields the five labelled normalized values; it
calls `_normalize` first, so it propagates the same `ZeroDivisionError`. -/
def Metric.iterForm (m : Metric) : Option (List (String × ℚ)) :=
  (m._normalize).map (fun v =>
    [("metric/H1", v.1), ("metric/H3", v.2.1), ("metric/H10", v.2.2.1),
      ("metric/MR", v.2.2.2.1), ("metric/MRR", v.2.2.2.2)])

/-! ### Vectors (1-D torch tensors on the evaluation path) -/

/-- Embedding vectors: lists of exact rationals. -/
abbrev Vec := List ℚ

/-- Elementwise sum (broadcast-free tensor `+`). -/
def vadd (x y : Vec) : Vec := List.zipWith (· + ·) x y

/-- Elementwise difference (tensor `-`). -/
def vsub (x y : Vec) : Vec := List.zipWith (· - ·) x y

/-- Elementwise (Hadamard) product (tensor `*`). -/
def vmul (x y : Vec) : Vec := List.zipWith (· * ·) x y

/-- Dot product: one entry of `torch.matmul(v, W.t())`. -/
def dot (x y : Vec) : ℚ := (vmul x y).sum

/-- `torch.cdist(x, y, p)` for one pair of rows. For `p = 1` this is the
exact L1 distance. For `p = 2` the true distance is `√(Σ d²)`, which is not
rational; since `evaluate` only ever feeds these distances to `argsort`,
and `t ↦ √t` is strictly monotone on nonnegatives, we embed the `p = 2`
case as the squared L2 distance `Σ d²`, which induces the same ordering of
candidates and hence the same ranks. -/
def cdistP (p : Nat) (x y : Vec) : ℚ :=
  if p = 1 then ((vsub x y).map (fun d => |d|)).sum
  else ((vsub x y).map (fun d => d * d)).sum

/-! ### The evaluation path (src/utils.py, `_p` and `evaluate`) -/

/-- The three model choices of `--model`. -/
inductive Model
  | TTransE
  | TADistMult
  | TATransE
  deriving DecidableEq, Repr

/-- The three `--mode` choices of the evaluator. -/
inductive Mode
  | head
  | tail
  | both
  deriving DecidableEq, Repr

/-- `_p(args)`: `1 if args.model == 'TTransE' and args.l1 else 2`. -/
def _p (model : Model) (l1 : Bool) : Nat :=
  if model = Model.TTransE ∧ l1 = true then 1 else 2

/-- The embedding tables of the (black-box) model module: `e_embed` for
entities, `r_embed`/`t_embed` for TTransE's separate relation and temporal
embeddings, `rt_embed` for the TA models' joint relation-time encoder. -/
structure Params where
  nEnt : Nat
  e_embed : Nat → Vec
  r_embed : Nat → Vec
  t_embed : Nat → Vec
  rt_embed : Nat → Nat → Vec
  l1 : Bool

/-- One evaluation triple from the batch `b`: subject `b[:,0]`, object
`b[:,1]`, relation `b[:,2]`, squeezed temporal token `b[:,3:]`. -/
structure Triple where
  s : Nat
  o : Nat
  r : Nat
  t : Nat
  deriving DecidableEq, Repr

/-- `rt_embed` as `evaluate` computes it: `r_embed(ts_r) + t_embed(ts_t)`
for TTransE, the module's `rt_embed(ts_r, ts_t)` otherwise. -/
def rtEmbedOf (model : Model) (P : Params) (r t : Nat) : Vec :=
  match model with
  | Model.TTransE => vadd (P.r_embed r) (P.t_embed t)
  | _ => P.rt_embed r t

/-- The comparison `argsort(descending=True)` sorts by: candidate `i`
precedes candidate `j` when `i`'s score is at least `j`'s. -/
def descRel (scores : List ℚ) (i j : Nat) : Prop :=
  scores.getD j 0 ≤ scores.getD i 0

instance (scores : List ℚ) : DecidableRel (descRel scores) := fun i j =>
  inferInstanceAs (Decidable (scores.getD j 0 ≤ scores.getD i 0))

instance (scores : List ℚ) : IsTotal Nat (descRel scores) :=
  ⟨fun i j => le_total (scores.getD j 0) (scores.getD i 0)⟩

instance (scores : List ℚ) : IsTrans Nat (descRel scores) :=
  ⟨fun _ _ _ hij hjk => le_trans hjk hij⟩

/-- `argsort(dim=1, descending=True)` on one row of scores: the list of
candidate indices sorted by descending score. Embedded with stable
insertion sort; torch's sort promises determinism but not stability, and
every ranking fact we prove assumes pairwise-distinct scores, where all
comparison sorts agree. -/
def argsortDesc (scores : List ℚ) : List Nat :=
  List.insertionSort (descRel scores) (List.range scores.length)

/-- `np.argwhere(row == e)[0, 0] + 1`: the 1-indexed first position of
candidate `e` in the sorted row. -/
def rankIn (row : List Nat) (e : Nat) : Nat := row.indexOf e + 1

/-- Head-ranking score row (the `args.mode != 'tail'` branch): for
TADistMult, `ort = rt_embed * o_embed` scored against every entity by dot
product; otherwise `ort = o_embed - rt_embed` and every entity's `cdist`
to `ort` (note: the code argsorts these raw distances descending). -/
def headScores (model : Model) (P : Params) (tp : Triple) : List ℚ :=
  let rt := rtEmbedOf model P tp.r tp.t
  match model with
  | Model.TADistMult =>
      let ort := vmul rt (P.e_embed tp.o)
      (List.range P.nEnt).map (fun j => dot ort (P.e_embed j))
  | _ =>
      let ort := vsub (P.e_embed tp.o) rt
      (List.range P.nEnt).map (fun j => cdistP (_p model P.l1) (P.e_embed j) ort)

/-- Tail-ranking score row (the `args.mode != 'head'` branch): for
TADistMult, `srt = s_embed * rt_embed` scored by dot product; otherwise
`srt = s_embed + rt_embed` and the `cdist` from `srt` to every entity
(again argsorted descending by the code). -/
def tailScores (model : Model) (P : Params) (tp : Triple) : List ℚ :=
  let rt := rtEmbedOf model P tp.r tp.t
  match model with
  | Model.TADistMult =>
      let srt := vmul (P.e_embed tp.s) rt
      (List.range P.nEnt).map (fun j => dot srt (P.e_embed j))
  | _ =>
      let srt := vadd (P.e_embed tp.s) rt
      (List.range P.nEnt).map (fun j => cdistP (_p model P.l1) srt (P.e_embed j))

/-- The rank `mtr.update` receives for the subject of one triple. -/
def headRank (model : Model) (P : Params) (tp : Triple) : Nat :=
  rankIn (argsortDesc (headScores model P tp)) tp.s

/-- The rank `mtr.update` receives for the object of one triple. -/
def tailRank (model : Model) (P : Params) (tp : Triple) : Nat :=
  rankIn (argsortDesc (tailScores model P tp)) tp.o

/-- The sequence of ranks `evaluate` feeds to `mtr.update` for batch `b`:
the head loop runs unless mode is `tail`, then the tail loop runs unless
mode is `head`. -/
def evalRanks (model : Model) (mode : Mode) (P : Params) (b : List Triple) :
    List Nat :=
  (if mode ≠ Mode.tail then b.map (headRank model P) else [])
    ++ (if mode ≠ Mode.head then b.map (tailRank model P) else [])

/-- `evaluate(args, b, mdl, mtr, dvc)`: folds the computed ranks into the
metric accumulator in program order. -/
def evaluate (model : Model) (mode : Mode) (P : Params) (b : List Triple)
    (mtr : Metric) : Metric :=
  (evalRanks model mode P b).foldl (fun m r => m.updateSt (Int.ofNat r)) mtr

/-! ### Temporal-token index (src/utils.py, `get_data` line
`t_idx = {e: i for i, e in enumerate(np.unique(...))}`) -/

/-- `np.unique` of the flattened temporal columns: the sorted list of
distinct token values. -/
def npUnique (l : List ℤ) : List ℤ := l.toFinset.sort (· ≤ ·)

/-- The flattened temporal tokens of `np.concatenate([tr, vd, ts], axis=1)`:
the union (as concatenation) of the three splits' token multisets. -/
def allTokens (tr vd ts : List ℤ) : List ℤ := tr ++ vd ++ ts

/-- `t_idx[e]`: the id the dict comprehension assigns to token `e`, i.e.
its position in the sorted distinct-token list. -/
def tIdxOf (tokens : List ℤ) (e : ℤ) : Nat := (npUnique tokens).indexOf e

/-- `t_idx_ln = len(t_idx)`: the number of distinct tokens. -/
def tIdxLn (tokens : List ℤ) : Nat := (npUnique tokens).length

/-! ### Checkpoint resumption (src/utils.py, `resume`) -/

/-- The loading actions `resume` can perform after its existence check. -/
inductive ResumeStep
  | load_ckpt
  | load_mdl
  | load_opt
  | load_amp
  deriving DecidableEq, Repr

/-- The error `resume` raises when `os.path.exists(args.resume)` is false. -/
inductive UtilError
  | fileNotFoundError
  deriving DecidableEq, Repr

/-- The checkpoint payload relevant to `resume`'s return value. -/
structure Ckpt where
  e : Nat
  bst_ls : ℚ

/-- `resume(args, mdl, opt, amp, dvc)`: `fs` is the filesystem's
`os.path.exists`, `cuda` is `torch.cuda.is_available()`. Returns the trace
of loading steps performed together with either the raised error or the
returned `(ckpt['e'], ckpt['bst_ls'])`. The existence check comes first:
on a missing path nothing is loaded. -/
def resume (fs : String → Bool) (path : String) (cuda : Bool) (ckpt : Ckpt) :
    List ResumeStep × Except UtilError (Nat × ℚ) :=
  if fs path = false then ([], Except.error UtilError.fileNotFoundError)
  else
    (([ResumeStep.load_ckpt, ResumeStep.load_mdl, ResumeStep.load_opt]
        ++ if cuda then [ResumeStep.load_amp] else []),
      Except.ok (ckpt.e, ckpt.bst_ls))

/-! ### Helper lemmas -/

/-- Closed form of the post-state of `update`: every counter is bumped by
its guard; `mrr` gains `1/r` exactly when the final division did not raise. -/
theorem updateSt_eq (m : Metric) (r : Int) :
    m.updateSt r =
      { cnt := m.cnt + 1,
        h_1 := m.h_1 + (if r < 2 then 1 else 0),
        h_3 := m.h_3 + (if r < 4 then 1 else 0),
        h_10 := m.h_10 + (if r < 11 then 1 else 0),
        mr := m.mr + r,
        mrr := m.mrr + (if r = 0 then 0 else 1 / (r : ℚ)) } := by
  unfold Metric.updateSt Metric.update
  split_ifs <;> simp_all

/-- The error flag of `update` is independent of the metric state. -/
theorem update_snd_eq (m : Metric) (r : Int) :
    (m.update r).2 = (if r = 0 then true else false) := by
  unfold Metric.update
  split_ifs <;> simp_all

/-! ### Claim theorems: Metric -/

/-- C4: for every rank `r ≥ 1`, `Metric.update r` increments `cnt` by one,
increments `h_1` iff `r < 2`, `h_3` iff `r < 4`, `h_10` iff `r < 11`, adds
`r` to the mean-rank sum and `1/r` to the reciprocal-rank sum, raises no
error, and changes no other field. -/
theorem metric_update_spec (m : Metric) (r : Int) (h : 1 ≤ r) :
    m.update r =
      ({ cnt := m.cnt + 1,
         h_1 := m.h_1 + (if r < 2 then 1 else 0),
         h_3 := m.h_3 + (if r < 4 then 1 else 0),
         h_10 := m.h_10 + (if r < 11 then 1 else 0),
         mr := m.mr + r,
         mrr := m.mrr + 1 / (r : ℚ) }, false) := by
  have hr : r ≠ 0 := by omega
  have h2 := update_snd_eq m r
  have h1 := updateSt_eq m r
  rw [if_neg hr] at h2
  rw [if_neg hr] at h1
  exact Prod.ext h1 h2

/-- Witness for C4 at the concrete rank 1 on a fresh accumulator. -/
theorem metric_update_spec_witness :
    Metric.update Metric.init 1 =
      ({ cnt := Metric.init.cnt + 1,
         h_1 := Metric.init.h_1 + (if (1 : Int) < 2 then 1 else 0),
         h_3 := Metric.init.h_3 + (if (1 : Int) < 4 then 1 else 0),
         h_10 := Metric.init.h_10 + (if (1 : Int) < 11 then 1 else 0),
         mr := Metric.init.mr + 1,
         mrr := Metric.init.mrr + 1 / ((1 : Int) : ℚ) }, false) :=
  metric_update_spec Metric.init 1 (by decide)

/-- C5: metric accumulation is order-independent — any two updates commute,
and applying the ranks `[2, 5, 1]` in each of the six orders to a fresh
accumulator yields `cnt = 3, h_1 = 1, h_3 = 2, h_10 = 3, mr = 8,
mrr = 1/2 + 1/5 + 1 = 17/10`. -/
theorem metric_update_order_independent :
    (∀ (m : Metric) (a b : Int),
        (m.updateSt a).updateSt b = (m.updateSt b).updateSt a)
    ∧ ((Metric.init.updateSt 2).updateSt 5).updateSt 1 = ⟨3, 1, 2, 3, 8, 17/10⟩
    ∧ ((Metric.init.updateSt 2).updateSt 1).updateSt 5 = ⟨3, 1, 2, 3, 8, 17/10⟩
    ∧ ((Metric.init.updateSt 5).updateSt 2).updateSt 1 = ⟨3, 1, 2, 3, 8, 17/10⟩
    ∧ ((Metric.init.updateSt 5).updateSt 1).updateSt 2 = ⟨3, 1, 2, 3, 8, 17/10⟩
    ∧ ((Metric.init.updateSt 1).updateSt 2).updateSt 5 = ⟨3, 1, 2, 3, 8, 17/10⟩
    ∧ ((Metric.init.updateSt 1).updateSt 5).updateSt 2 = ⟨3, 1, 2, 3, 8, 17/10⟩ := by
  refine ⟨fun m a b => ?_, ?_, ?_, ?_, ?_, ?_, ?_⟩
  · simp only [updateSt_eq]
    refine Metric.ext ?_ ?_ ?_ ?_ ?_ ?_ <;> simp <;> ring
  all_goals
    simp only [updateSt_eq, Metric.init]
    refine Metric.ext ?_ ?_ ?_ ?_ ?_ ?_ <;> norm_num

/-- C7 counterexample: the rank `-1` is `≤ 0`, yet `Metric.update (-1)`
raises no error and records the rank (it is added to the mean-rank sum),
so "every rank ≤ 0 fails" is false. -/
theorem metric_update_neg_no_error :
    ((-1 : Int) ≤ 0)
    ∧ (Metric.update Metric.init (-1)).2 = false
    ∧ (Metric.update Metric.init (-1)).1.cnt = 1
    ∧ (Metric.update Metric.init (-1)).1.mr = -1 := by
  refine ⟨by decide, ?_, ?_, ?_⟩
  · rw [update_snd_eq]; decide
  · rw [show (Metric.update Metric.init (-1)).1 = Metric.init.updateSt (-1) from rfl,
      updateSt_eq]
    simp [Metric.init]
  · rw [show (Metric.update Metric.init (-1)).1 = Metric.init.updateSt (-1) from rfl,
      updateSt_eq]
    simp [Metric.init]

/-- C7 amended: `Metric.update r` raises (ZeroDivisionError from `1.0/r`)
iff `r = 0`; every other rank, negative ranks included, is recorded without
error (in particular `r` is always added to the mean-rank sum). -/
theorem metric_update_raises_iff_zero (m : Metric) (r : Int) :
    ((m.update r).2 = true ↔ r = 0) ∧ (m.update r).1.mr = m.mr + r := by
  constructor
  · rw [update_snd_eq]
    split_ifs with h <;> simp [h]
  · rw [show (m.update r).1 = m.updateSt r from rfl, updateSt_eq]

/-- C8: `Metric.update 0` raises, but only after `cnt`, `h_1`, `h_3`,
`h_10` and the mean-rank sum have been mutated (the mean-rank sum gains
`0`), so the failing call leaves the accumulator changed, not rolled back. -/
theorem metric_update_zero_partial_mutation (m : Metric) :
    (m.update 0).2 = true
    ∧ (m.update 0).1 =
        { m with cnt := m.cnt + 1, h_1 := m.h_1 + 1, h_3 := m.h_3 + 1,
                 h_10 := m.h_10 + 1, mr := m.mr + 0 }
    ∧ (m.update 0).1 ≠ m := by
  refine ⟨by rw [update_snd_eq]; simp, ?_, ?_⟩
  · rw [show (m.update 0).1 = m.updateSt 0 from rfl, updateSt_eq]
    norm_num
  · intro hEq
    have h : (m.update 0).1.cnt = m.cnt := by rw [hEq]
    rw [show (m.update 0).1 = m.updateSt 0 from rfl, updateSt_eq] at h
    simp at h

/-- C9: reading the displayed metrics off a fresh accumulator (`cnt = 0`)
fails: `_normalize` divides by `cnt` with no guard (0/0 raises in Python),
and `__str__` / `__iter__` call it and propagate the failure. -/
theorem metric_normalize_cnt_zero (m : Metric) (h : m.cnt = 0) :
    m._normalize = none ∧ m.strForm = none ∧ m.iterForm = none := by
  simp [Metric._normalize, Metric.strForm, Metric.iterForm, h]

/-- Witness for C9 on the freshly-created accumulator. -/
theorem metric_normalize_cnt_zero_witness :
    Metric.init._normalize = none ∧ Metric.init.strForm = none
      ∧ Metric.init.iterForm = none :=
  metric_normalize_cnt_zero Metric.init rfl

/-! ### Claim theorems: resume -/

/-- C10: when the checkpoint path does not exist, `resume` raises
`FileNotFoundError` with an empty loading trace: no checkpoint, model,
optimizer or amp state is loaded before the error reaches the caller. -/
theorem resume_missing_path (fs : String → Bool) (path : String)
    (cuda : Bool) (ckpt : Ckpt) (h : fs path = false) :
    resume fs path cuda ckpt = ([], Except.error UtilError.fileNotFoundError) := by
  simp [resume, h]

/-- Witness for C10 on a filesystem with no files. -/
theorem resume_missing_path_witness :
    resume (fun _ => false) "model.ckpt" true ⟨0, 0⟩
      = ([], Except.error UtilError.fileNotFoundError) :=
  resume_missing_path (fun _ => false) "model.ckpt" true ⟨0, 0⟩ rfl

/-! ### Claim theorems: evaluate's update count (C6) -/

/-- Folding ranks into the accumulator adds one to `cnt` per rank. -/
theorem foldl_updateSt_cnt (l : List Nat) (mtr : Metric) :
    (l.foldl (fun m r => m.updateSt (Int.ofNat r)) mtr).cnt = mtr.cnt + l.length := by
  induction l generalizing mtr with
  | nil => simp
  | cons a t ih =>
      rw [List.foldl_cons, ih, updateSt_eq]
      simp
      omega

/-- C6: per evaluated triple, mode `both` feeds two ranks (one head, one
tail) to `Metric.update`, while modes `head` and `tail` feed exactly one;
hence `cnt` grows by `2 * |b|` under `both` and by `|b|` otherwise. -/
theorem evaluate_update_count (model : Model) (mode : Mode) (P : Params)
    (b : List Triple) (mtr : Metric) :
    (evalRanks model mode P b).length
        = (if mode = Mode.both then 2 * b.length else b.length)
    ∧ (evaluate model mode P b mtr).cnt
        = mtr.cnt + (if mode = Mode.both then 2 * b.length else b.length) := by
  have hlen : (evalRanks model mode P b).length
      = (if mode = Mode.both then 2 * b.length else b.length) := by
    cases mode <;> simp [evalRanks, Nat.two_mul]
  exact ⟨hlen, by rw [evaluate, foldl_updateSt_cnt, hlen]⟩

/-! ### Claim theorems: the temporal-token index (C3) -/

/-- `np.unique` keeps exactly the values present in its input. -/
theorem mem_npUnique {tokens : List ℤ} {e : ℤ} :
    e ∈ npUnique tokens ↔ e ∈ tokens := by
  simp [npUnique, Finset.mem_sort, List.mem_toFinset]

/-- The distinct-token list is strictly increasing. -/
theorem npUnique_sorted_lt (tokens : List ℤ) :
    (npUnique tokens).Sorted (· < ·) :=
  Finset.sort_sorted_lt _

/-- The distinct-token list has no duplicates. -/
theorem npUnique_nodup (tokens : List ℤ) : (npUnique tokens).Nodup :=
  Finset.sort_nodup _ _

/-- In a strictly sorted list, `indexOf` is strictly monotone. -/
theorem indexOf_lt_indexOf_of_sorted {l : List ℤ} (hs : l.Sorted (· < ·))
    {a b : ℤ} (ha : a ∈ l) (hb : b ∈ l) (hab : a < b) :
    l.indexOf a < l.indexOf b := by
  have hia := List.indexOf_lt_length.2 ha
  have hib := List.indexOf_lt_length.2 hb
  rcases lt_trichotomy (l.indexOf a) (l.indexOf b) with h | h | h
  · exact h
  · exfalso
    have hg : l.get ⟨l.indexOf a, hia⟩ = l.get ⟨l.indexOf b, hib⟩ := by
      congr 1
      exact Fin.ext h
    rw [List.indexOf_get, List.indexOf_get] at hg
    omega
  · exfalso
    have hgt := List.pairwise_iff_get.1 hs ⟨l.indexOf b, hib⟩ ⟨l.indexOf a, hia⟩ h
    rw [List.indexOf_get, List.indexOf_get] at hgt
    omega

/-- In a duplicate-free list, `indexOf` of the `i`-th element is `i`. -/
theorem indexOf_get_of_nodup {l : List ℤ} (h : l.Nodup) (i : Fin l.length) :
    l.indexOf (l.get i) = i.val := by
  have hmem : l.get i ∈ l := by
    obtain ⟨n, hn⟩ := i
    exact l.get_mem n hn
  have hlt := List.indexOf_lt_length.2 hmem
  have hget := List.indexOf_get (a := l.get i) (l := l) hlt
  have := (List.Nodup.get_inj_iff h).1 hget
  exact congrArg Fin.val this

/-- C3: the temporal-token mapping of `get_data` sends the distinct tokens
of the union of the train, validation and test splits bijectively onto
`[0, count)`, with ids assigned in increasing order of token value; being a
pure function of its input, re-running it on identical input reproduces the
identical mapping. -/
theorem t_idx_spec (tr vd ts : List ℤ) :
    (∀ e, (e ∈ tr ∨ e ∈ vd ∨ e ∈ ts) →
      tIdxOf (allTokens tr vd ts) e < tIdxLn (allTokens tr vd ts))
    ∧ (∀ e e', e ∈ allTokens tr vd ts → e' ∈ allTokens tr vd ts → e ≠ e' →
      tIdxOf (allTokens tr vd ts) e ≠ tIdxOf (allTokens tr vd ts) e')
    ∧ (∀ i, i < tIdxLn (allTokens tr vd ts) →
      ∃ e, e ∈ allTokens tr vd ts ∧ tIdxOf (allTokens tr vd ts) e = i)
    ∧ (∀ e e', e ∈ allTokens tr vd ts → e' ∈ allTokens tr vd ts → e < e' →
      tIdxOf (allTokens tr vd ts) e < tIdxOf (allTokens tr vd ts) e') := by
  refine ⟨fun e he => ?_, fun e e' he he' hne => ?_, fun i hi => ?_,
    fun e e' he he' hlt => ?_⟩
  · have hmem : e ∈ allTokens tr vd ts := by
      simp only [allTokens, List.mem_append]
      tauto
    exact List.indexOf_lt_length.2 (mem_npUnique.2 hmem)
  · intro hEq
    exact hne ((List.indexOf_inj (mem_npUnique.2 he) (mem_npUnique.2 he')).1 hEq)
  · refine ⟨(npUnique (allTokens tr vd ts)).get ⟨i, hi⟩, ?_, ?_⟩
    · exact mem_npUnique.1 (by
        exact (npUnique (allTokens tr vd ts)).get_mem i hi)
    · exact indexOf_get_of_nodup (npUnique_nodup _) ⟨i, hi⟩
  · exact indexOf_lt_indexOf_of_sorted (npUnique_sorted_lt _)
      (mem_npUnique.2 he) (mem_npUnique.2 he') hlt

/-- Witness for C3 on concrete splits: a token seen only in the validation
split gets a valid id, and two distinct tokens get distinct ids. -/
theorem t_idx_spec_witness :
    tIdxOf (allTokens [5, 3] [5, 7] [3]) 7 < tIdxLn (allTokens [5, 3] [5, 7] [3])
    ∧ tIdxOf (allTokens [5, 3] [5, 7] [3]) 3
        ≠ tIdxOf (allTokens [5, 3] [5, 7] [3]) 5
    ∧ tIdxOf (allTokens [5, 3] [5, 7] [3]) 3
        < tIdxOf (allTokens [5, 3] [5, 7] [3]) 5 :=
  ⟨(t_idx_spec [5, 3] [5, 7] [3]).1 7 (by decide),
   (t_idx_spec [5, 3] [5, 7] [3]).2.1 3 5 (by decide) (by decide) (by decide),
   (t_idx_spec [5, 3] [5, 7] [3]).2.2.2 3 5 (by decide) (by decide) (by decide)⟩

/-! ### Ranking: position in a descending sort vs. count of better scores -/

/-- `getD` agrees with indexing inside the bounds. -/
theorem getD_eq_getElem_of_lt (l : List ℚ) (i : Nat) (h : i < l.length) :
    l.getD i 0 = l[i] := by
  rw [List.getD_eq_getElem?_getD, List.getElem?_eq_getElem h]
  rfl

/-- In a list sorted by descending score whose scores are pairwise
distinct, the position of a member equals the number of members with a
strictly higher score. -/
theorem indexOf_sortedDesc_eq_countP (s : Nat → ℚ) :
    ∀ l : List Nat, l.Sorted (fun i j => s j ≤ s i) →
      l.Pairwise (fun i j => s i ≠ s j) → ∀ e, e ∈ l →
      l.indexOf e = l.countP (fun j => decide (s e < s j)) := by
  intro l
  induction l with
  | nil => intro _ _ e he; simp at he
  | cons a t ih =>
      intro hs hd e he
      rcases eq_or_ne e a with rfl | hne
      · rw [List.indexOf_cons_self, List.countP_cons]
        have h2 : t.countP (fun j => decide (s e < s j)) = 0 := by
          rw [List.countP_eq_zero]
          intro j hj
          have hle : s j ≤ s e := List.rel_of_sorted_cons hs j hj
          simpa using not_lt.2 hle
        simp [h2]
      · have het : e ∈ t := by
          rcases List.mem_cons.1 he with h | h
          · exact absurd h hne
          · exact h
        rw [List.indexOf_cons_ne _ (Ne.symm hne), List.countP_cons]
        have hle : s e ≤ s a := List.rel_of_sorted_cons hs e het
        have hne' : s a ≠ s e := (List.pairwise_cons.1 hd).1 e het
        have hp : decide (s e < s a) = true := by
          simp only [decide_eq_true_eq]
          exact lt_of_le_of_ne hle (fun h => hne' h.symm)
        rw [ih hs.of_cons (List.pairwise_cons.1 hd).2 e het, hp]
        simp

/-- The candidate list `argsortDesc` works through is `range n`, whose
values under any score map are pairwise distinct when the score row is. -/
theorem pairwise_range_of_pairwise_scores (scores : List ℚ)
    (hd : scores.Pairwise (· ≠ ·)) :
    (List.range scores.length).Pairwise
      (fun i j => scores.getD i 0 ≠ scores.getD j 0) := by
  rw [List.pairwise_iff_getElem]
  intro i j hi hj hij
  simp only [List.getElem_range]
  have hi' : i < scores.length := by simpa using hi
  have hj' : j < scores.length := by simpa using hj
  rw [getD_eq_getElem_of_lt _ _ hi', getD_eq_getElem_of_lt _ _ hj']
  exact List.pairwise_iff_getElem.1 hd i j hi' hj' hij

/-- The rank the evaluator records — 1-indexed position in the descending
argsort — equals one plus the number of candidates with a strictly higher
score, provided the scores are pairwise distinct. -/
theorem rank_argsortDesc (scores : List ℚ) (e : Nat)
    (hd : scores.Pairwise (· ≠ ·)) (he : e < scores.length) :
    rankIn (argsortDesc scores) e
      = 1 + (List.range scores.length).countP
          (fun j => decide (scores.getD e 0 < scores.getD j 0)) := by
  have hperm : List.Perm (argsortDesc scores) (List.range scores.length) :=
    List.perm_insertionSort _ _
  have hsorted : (argsortDesc scores).Sorted (descRel scores) :=
    List.sorted_insertionSort _ _
  have hpw : (argsortDesc scores).Pairwise
      (fun i j => scores.getD i 0 ≠ scores.getD j 0) :=
    (hperm.pairwise_iff (fun h => Ne.symm h)).2
      (pairwise_range_of_pairwise_scores scores hd)
  have hmem : e ∈ argsortDesc scores := by
    rw [argsortDesc, List.mem_insertionSort, List.mem_range]
    exact he
  have hcount := indexOf_sortedDesc_eq_countP (fun i => scores.getD i 0)
    (argsortDesc scores) hsorted hpw e hmem
  rw [rankIn, hcount, hperm.countP_eq]
  have hbeta :
      (fun j => decide ((fun i => scores.getD i 0) e < (fun i => scores.getD i 0) j))
        = fun j => decide (scores.getD e 0 < scores.getD j 0) := rfl
  rw [hbeta]
  omega

/-- The tail-ranking score row has one score per candidate entity. -/
theorem tailScores_length (model : Model) (P : Params) (tp : Triple) :
    (tailScores model P tp).length = P.nEnt := by
  cases model <;> simp [tailScores]

/-! ### Claim theorems: TADistMult tail-ranking (C2) -/

/-- The spec's toy instance: 4 entities whose (1-dimensional) embeddings
and relation-time vectors make the TADistMult tail scores over candidates
`[0, 1, 2, 3]` come out as `[0.9, 0.1, 0.5, 0.3]` for both test triples. -/
def P2 : Params where
  nEnt := 4
  e_embed := fun j =>
    if j = 0 then [9/10] else if j = 1 then [1/10]
    else if j = 2 then [1/2] else [3/10]
  r_embed := fun _ => [0]
  t_embed := fun _ => [0]
  rt_embed := fun r _ => if r = 0 then [10/9] else [2]
  l1 := false

/-- Tail scores of the triple with true object 0. -/
theorem scoresA :
    tailScores Model.TADistMult P2 ⟨0, 0, 0, 0⟩ = [9/10, 1/10, 1/2, 3/10] := by
  norm_num [tailScores, P2, rtEmbedOf, vmul, dot, List.range_succ]

/-- Tail scores of the triple with true object 2. -/
theorem scoresB :
    tailScores Model.TADistMult P2 ⟨2, 2, 1, 0⟩ = [9/10, 1/10, 1/2, 3/10] := by
  norm_num [tailScores, P2, rtEmbedOf, vmul, dot, List.range_succ]

/-- Descending argsort of the toy scores: `0.9, 0.5, 0.3, 0.1`. -/
theorem argsortToy : argsortDesc [9/10, 1/10, 1/2, 3/10] = [0, 2, 3, 1] := by
  norm_num [argsortDesc, descRel, List.insertionSort, List.orderedInsert,
    List.range_succ]

/-- The toy scores are pairwise distinct (true-object-0 triple). -/
theorem pairwiseScoresA :
    (tailScores Model.TADistMult P2 ⟨0, 0, 0, 0⟩).Pairwise (· ≠ ·) := by
  rw [scoresA]
  norm_num

/-- C2: for TADistMult tail-ranking, the recorded rank is the 1-indexed
position of the true object in the descending sort of the dot-product
scores, which for pairwise-distinct scores equals 1 plus the number of
candidates with strictly higher score; on the toy scores
`[0.9, 0.1, 0.5, 0.3]` the true tail 0 gets rank 1 and true tail 2 gets
rank 2. -/
theorem tadm_tail_rank_spec :
    (∀ (P : Params) (tp : Triple),
        (tailScores Model.TADistMult P tp).Pairwise (· ≠ ·) → tp.o < P.nEnt →
        tailRank Model.TADistMult P tp
          = 1 + (List.range P.nEnt).countP
              (fun j => decide ((tailScores Model.TADistMult P tp).getD tp.o 0
                < (tailScores Model.TADistMult P tp).getD j 0)))
    ∧ tailScores Model.TADistMult P2 ⟨0, 0, 0, 0⟩ = [9/10, 1/10, 1/2, 3/10]
    ∧ tailRank Model.TADistMult P2 ⟨0, 0, 0, 0⟩ = 1
    ∧ tailScores Model.TADistMult P2 ⟨2, 2, 1, 0⟩ = [9/10, 1/10, 1/2, 3/10]
    ∧ tailRank Model.TADistMult P2 ⟨2, 2, 1, 0⟩ = 2 := by
  refine ⟨fun P tp hd ho => ?_, scoresA, ?_, scoresB, ?_⟩
  · have hlen := tailScores_length Model.TADistMult P tp
    have hrk := rank_argsortDesc (tailScores Model.TADistMult P tp) tp.o hd
      (by rw [hlen]; exact ho)
    rw [tailRank, hrk, hlen]
  · rw [tailRank, scoresA, argsortToy]
    decide
  · rw [tailRank, scoresB, argsortToy]
    decide

/-- Witness for C2: the general rank formula applied at the toy instance. -/
theorem tadm_tail_rank_spec_witness :
    tailRank Model.TADistMult P2 ⟨0, 0, 0, 0⟩
      = 1 + (List.range P2.nEnt).countP
          (fun j => decide ((tailScores Model.TADistMult P2 ⟨0, 0, 0, 0⟩).getD 0 0
            < (tailScores Model.TADistMult P2 ⟨0, 0, 0, 0⟩).getD j 0)) :=
  tadm_tail_rank_spec.1 P2 ⟨0, 0, 0, 0⟩ pairwiseScoresA (by decide)

/-! ### Claim theorem: distance-model ranking direction (C1) -/

/-- A 2-entity TTransE instance (L1 distance): entity 0 sits exactly at the
query point (distance 0), entity 1 is far away (distance 10). -/
def P1 : Params where
  nEnt := 2
  e_embed := fun j => if j = 0 then [0] else [10]
  r_embed := fun _ => [0]
  t_embed := fun _ => [0]
  rt_embed := fun _ _ => [0]
  l1 := true

/-- The tail-ranking distance row of the P1 test triple. -/
theorem scoresP1 :
    tailScores Model.TTransE P1 ⟨0, 0, 0, 0⟩ = [0, 10] := by
  norm_num [tailScores, P1, rtEmbedOf, vadd, vsub, cdistP, _p, List.range_succ]

/-- C1 (refuted by the code): in the distance branch, `evaluate` argsorts
the raw `cdist` distances with `descending=True` and no sign inversion, so
the candidate at the *largest* distance comes first. On `P1`, the true
object (entity 0) is strictly closest to the query, yet its recorded rank
is 2 — the last of the 2 candidates — where the claim demands rank 1. -/
theorem distance_rank_code_bug :
    (tailScores Model.TTransE P1 ⟨0, 0, 0, 0⟩).getD 0 0
        < (tailScores Model.TTransE P1 ⟨0, 0, 0, 0⟩).getD 1 0
    ∧ tailRank Model.TTransE P1 ⟨0, 0, 0, 0⟩ = 2 := by
  constructor
  · rw [scoresP1]
    norm_num
  · have hsort : argsortDesc [0, 10] = [1, 0] := by
      norm_num [argsortDesc, descRel, List.insertionSort, List.orderedInsert,
        List.range_succ]
    rw [tailRank, scoresP1, hsort]
    decide

end Tkgc
